import Mathlib

/-!
Shallow embedding of the core of the `criticality_score` collector:

* the `algorithm` package: `Distribution`, the `normalizationFuncs`
  registry and `LookupDistribution`;
* the `wam` package: `WeightedArithmeticMean.Score`;
* the `collect_signals` worker: the per-repository processing loop of
  `collectWorker.Process` and the extra-column schema it fixes up front;
* the `signalio` writer-type text marshaling;
* the `depsdev` and `githubmentions` signal sources.

Record values and scores are modelled as real numbers; the one place where
IEEE-754 special values matter (the final division of the weighted
arithmetic mean, where the denominator can be exactly zero) is modelled by
an explicit result type `GoFloat` distinguishing NaN and the infinities,
with the Go `float64` division semantics on a zero divisor.
-/

namespace CriticalityScore

/-- Result of a Go `float64` division: either a finite real value or one of
the IEEE-754 non-finite values NaN, `+Inf`, `-Inf`. -/
inductive GoFloat where
  | nan : GoFloat
  | posInf : GoFloat
  | negInf : GoFloat
  | fin : ℝ → GoFloat

/-- `GoFloat.isFinite` holds exactly on `fin` values. -/
def GoFloat.isFinite : GoFloat → Bool
  | .fin _ => true
  | _ => false

/-- Go `float64` division `a / b` of two finite values: ordinary real
division when `b ≠ 0`; on a zero divisor, IEEE-754 gives NaN for `0/0` and
a signed infinity otherwise. -/
noncomputable def goDiv (a b : ℝ) : GoFloat :=
  if b = 0 then
    if a = 0 then .nan
    else if 0 < a then .posInf
    else .negInf
  else .fin (a / b)

/-! ## The `algorithm` package: distributions -/

/-- A named normalization transform (Go `algorithm.Distribution`). -/
structure Distribution where
  name : String
  normalizeFn : ℝ → ℝ

/-- `Distribution.String()` returns the distribution's name. -/
def Distribution.toText (d : Distribution) : String := d.name

/-- `Distribution.Normalize` applies the transform. -/
def Distribution.Normalize (d : Distribution) (v : ℝ) : ℝ := d.normalizeFn v

/-- The registry `normalizationFuncs`: a map from name to transform, with
entries `"linear" ↦ identity` and `"zapfian" ↦ fun v => log (1 + v)`
(Go `math.Log(1 + v)`). -/
noncomputable def normalizationFuncs : String → Option (ℝ → ℝ)
  | "linear" => some (fun v => v)
  | "zapfian" => some (fun v => Real.log (1 + v))
  | _ => none

/-- `DefaultDistributionName` from the source. -/
def DefaultDistributionName : String := "linear"

/-- `LookupDistribution(name)`: `nil` (here `none`) when the name is not in
`normalizationFuncs`, otherwise a `Distribution` carrying the name and the
registered transform. -/
noncomputable def LookupDistribution (name : String) : Option Distribution :=
  match normalizationFuncs name with
  | none => none
  | some fn => some { name := name, normalizeFn := fn }

/-! ## The `algorithm` package: inputs

The `algorithm.Input` type itself is not among the provided sources; only
its use in `WeightedArithmeticMean.Score` is. -/

/-- Modelled from the spec: the `algorithm.Input` type is absent from the
sources. Per the spec's data model, an Input is a named reference into a
Record carrying a weight and a Distribution, whose accessor `Value` yields
"value, present" instead of erroring when absent, with the Distribution
normalizing the raw value before weighting. -/
structure Input where
  field : String
  Weight : ℝ
  distribution : Distribution

/-- A Record as consumed by `Score`: Go `map[string]float64`, modelled as a
partial map from field keys to values. -/
abbrev Record := String → Option ℝ

/-- Modelled from the spec: `Input.Value` looks the Input's field up in the
record; when present it returns the distribution-normalized value, when
absent it reports absence. -/
def Input.Value (i : Input) (record : Record) : Option ℝ :=
  (record i.field).map i.distribution.normalizeFn

/-! ## The `wam` package -/

/-- `wam.WeightedArithmeticMean` holds the configured inputs. -/
structure WeightedArithmeticMean where
  inputs : List Input

/-- The loop body of `Score`: starting from accumulators
`(itemSum, itemCount)`, an input with a present value `v` adds
`Weight * v` to `itemSum` and `Weight` to `itemCount`; an absent input
leaves both unchanged. -/
def scoreStep (record : Record) (acc : ℝ × ℝ) (i : Input) : ℝ × ℝ :=
  match i.Value record with
  | some v => (acc.1 + i.Weight * v, acc.2 + i.Weight)
  | none => acc

/-- `WeightedArithmeticMean.Score`: fold the loop body over the inputs and
return `itemSum / itemCount` as a Go `float64` division. -/
noncomputable def WeightedArithmeticMean.Score (p : WeightedArithmeticMean)
    (record : Record) : GoFloat :=
  let acc := p.inputs.foldl (scoreStep record) (0, 0)
  goDiv acc.1 acc.2

/-- The numerator the spec describes: the sum of `weight_i * value_i` over
exactly the inputs whose value is present in the record. -/
def specNumerator (inputs : List Input) (record : Record) : ℝ :=
  (inputs.filterMap (fun i => (i.Value record).map (fun v => i.Weight * v))).sum

/-- The denominator the spec describes: the sum of `weight_i` over exactly
the inputs whose value is present in the record. -/
def specDenominator (inputs : List Input) (record : Record) : ℝ :=
  ((inputs.filter (fun i => (i.Value record).isSome)).map Input.Weight).sum

/-- The identity distribution, as registered under the name `"linear"`. -/
def identityDistribution : Distribution :=
  { name := "linear", normalizeFn := fun v => v }

/-- Example input A: weight 2, identity distribution. -/
def inputA : Input :=
  { field := "A", Weight := 2, distribution := identityDistribution }

/-- Example input B: weight 1, identity distribution. -/
def inputB : Input :=
  { field := "B", Weight := 1, distribution := identityDistribution }

/-- Example record with `A = 10` and `B = 4`. -/
def recordAB : Record := fun k =>
  if k = "A" then some 10 else if k = "B" then some 4 else none

/-- Example record with only `A = 10` (B absent). -/
def recordAOnly : Record := fun k =>
  if k = "A" then some 10 else none

/-! ## The `collect_signals` worker -/

/-- A parsed repository URL, as the worker and the sources see it:
`url.URL` restricted to the hostname and path components the embedded code
reads. -/
structure Url where
  hostname : String
  path : String

namespace signalio

/-- `signalio.Field`: a key/value pair appended to a record on output.
Values of the Go type are strings or times; they are modelled as strings,
since only the keys and value identity matter here. -/
structure Field where
  Key : String
  Value : String

end signalio

/-- `collectionDateColumnName` from the worker source. -/
def collectionDateColumnName : String := "collection_date"

/-- `commitIDColumnName` from the worker source. -/
def commitIDColumnName : String := "worker_commit_id"

/-- `vcs.MissingCommitID`: the sentinel returned when no commit ID was
embedded in the binary. -/
def MissingCommitID : String := "-missing-"

/-- The configuration of a `collectWorker` that the extras schema depends
on: whether a scorer is configured (`w.s != nil`), the score column name,
and the process-wide `vcs.CommitID()` value (memoized in the source, hence
a single value here). -/
structure WorkerConfig where
  hasScorer : Bool
  scoreColumnName : String
  commitID : String

/-- The extras column list fixed at CSV-writer construction in
`collectWorker.Process`: the score column if a scorer is configured, then
the collection date column, then the commit ID column when `vcs.CommitID()`
differs from the missing sentinel. -/
def constructionExtras (w : WorkerConfig) : List String :=
  (if w.hasScorer then [w.scoreColumnName] else [])
    ++ [collectionDateColumnName]
    ++ (if w.commitID ≠ MissingCommitID then [commitIDColumnName] else [])

/-- The per-record extras fields built inside the repository loop of
`collectWorker.Process`: the formatted score if a scorer is configured,
then the collection date, then the commit ID when it differs from the
missing sentinel. -/
def recordExtras (w : WorkerConfig) (score jobTime : String) :
    List signalio.Field :=
  (if w.hasScorer then [{ Key := w.scoreColumnName, Value := score }] else [])
    ++ [{ Key := collectionDateColumnName, Value := jobTime }]
    ++ (if w.commitID ≠ MissingCommitID then
          [{ Key := commitIDColumnName, Value := w.commitID }] else [])

/-- Outcome of `Collector.Collect` for one repository: a signal set, an
error matching `collector.ErrUncollectableRepo`, or any other error. -/
inductive CollectOutcome (σ : Type) where
  | ok : σ → CollectOutcome σ
  | uncollectable : CollectOutcome σ
  | fatal : String → CollectOutcome σ

/-- One output row written by `WriteSignals`: the collected signal set and
the per-record extras fields. -/
structure OutRow (σ : Type) where
  signals : σ
  extras : List signalio.Field

/-- The repository loop of `collectWorker.Process`: an empty raw URL is
skipped; an unparseable URL is skipped; an uncollectable repository is
skipped; any other collection error aborts with an error; otherwise a row
with the per-record extras is written and the loop continues. `parse`
stands for `url.Parse`, `collect` for `w.c.Collect`, and `scoreOf` for the
`fmt.Sprintf`-formatted `w.s.Score` value. -/
def processRepos {σ : Type} (w : WorkerConfig) (parse : String → Option Url)
    (collect : Url → CollectOutcome σ) (scoreOf : σ → String)
    (jobTime : String) : List String → Except String (List (OutRow σ))
  | [] => .ok []
  | rawURL :: rest =>
    if rawURL = "" then processRepos w parse collect scoreOf jobTime rest
    else
      match parse rawURL with
      | none => processRepos w parse collect scoreOf jobTime rest
      | some u =>
        match collect u with
        | .uncollectable => processRepos w parse collect scoreOf jobTime rest
        | .fatal e => .error ("failed during signal collection: " ++ e)
        | .ok ss =>
          (processRepos w parse collect scoreOf jobTime rest).map
            (fun rows =>
              { signals := ss,
                extras := recordExtras w (scoreOf ss) jobTime } :: rows)

/-- A repository the loop skips without writing a row: empty raw URL,
unparseable URL, or an uncollectable repository. -/
def skippedRepo {σ : Type} (parse : String → Option Url)
    (collect : Url → CollectOutcome σ) (r : String) : Prop :=
  r = "" ∨ parse r = none ∨
    ∃ u, parse r = some u ∧ collect u = CollectOutcome.uncollectable

/-- A repository whose collection fails with an error other than
`ErrUncollectableRepo`. -/
def fatalRepo {σ : Type} (parse : String → Option Url)
    (collect : Url → CollectOutcome σ) (r : String) : Prop :=
  ∃ u e, parse r = some u ∧ collect u = CollectOutcome.fatal e

/-- The row (if any) the loop writes for one repository. -/
def rowFor {σ : Type} (w : WorkerConfig) (parse : String → Option Url)
    (collect : Url → CollectOutcome σ) (scoreOf : σ → String)
    (jobTime : String) (r : String) : Option (OutRow σ) :=
  if r = "" then none
  else
    match parse r with
    | none => none
    | some u =>
      match collect u with
      | .ok ss =>
        some { signals := ss, extras := recordExtras w (scoreOf ss) jobTime }
      | _ => none

/-! ## The `signalio` writer type -/

/-- Modelled from the spec: the `signalio` writer-type source file is
absent from the sources (only its test is present). Per the spec and the
test, `WriterType` is an integer enumeration with `csv`, `json` and `text`
values in declaration order. -/
abbrev WriterType := Nat

/-- The `csv` writer type. -/
def WriterTypeCSV : WriterType := 0

/-- The `json` writer type. -/
def WriterTypeJSON : WriterType := 1

/-- The `text` writer type. -/
def WriterTypeText : WriterType := 2

/-- Errors of the modelled `signalio` package. -/
inductive SignalIOError where
  | unknownWriterType
deriving DecidableEq

/-- `signalio.ErrorUnknownWriterType`: the distinguishable error for an
unknown writer type or format name. -/
def ErrorUnknownWriterType : SignalIOError := SignalIOError.unknownWriterType

/-- Modelled from the spec and the test: `WriterType.String()` renders the
defined writer types as `"csv"`, `"json"`, `"text"` and any other value as
the empty string. -/
def WriterType.toText (t : WriterType) : String :=
  if t = WriterTypeCSV then "csv"
  else if t = WriterTypeJSON then "json"
  else if t = WriterTypeText then "text"
  else ""

/-- Modelled from the spec and the test: `WriterType.MarshalText` returns
the rendered name for a defined writer type and fails with
`ErrorUnknownWriterType` for any other value. -/
def WriterType.MarshalText (t : WriterType) : Except SignalIOError String :=
  let s := t.toText
  if s = "" then .error ErrorUnknownWriterType else .ok s

/-- Modelled from the spec and the test: `WriterType.UnmarshalText` parses
the three defined format names and fails with `ErrorUnknownWriterType` on
any other string. -/
def WriterType.UnmarshalText (s : String) : Except SignalIOError WriterType :=
  if s = "csv" then .ok WriterTypeCSV
  else if s = "json" then .ok WriterTypeJSON
  else if s = "text" then .ok WriterTypeText
  else .error ErrorUnknownWriterType

/-! ## The `depsdev` source -/

namespace depsdev

/-- Go `strings.Trim(s, "/")`: remove all leading and trailing `/`
characters. -/
def trimSlashes (s : String) : String :=
  let l := s.toList.dropWhile (fun c => c = '/')
  String.mk (l.reverse.dropWhile (fun c => c = '/')).reverse

/-- `parseRepoURL`: a `github.com` URL yields the slash-trimmed path as
project name with type `"GITHUB"`; any other host yields empty name and
type. -/
def parseRepoURL (u : Url) : String × String :=
  if u.hostname = "github.com" then (trimSlashes u.path, "GITHUB")
  else ("", "")

/-- `depsDevSet`: the single optional `dependent_count` field. -/
structure depsDevSet where
  DependentCount : Option Int

/-- `depsDevSource.IsSupported`: supported iff `parseRepoURL` yields a
non-empty project type. -/
def IsSupported (u : Url) : Bool :=
  (parseRepoURL u).2 ≠ ""

/-- `depsDevSource.Get`: with `count` standing for `dependents.Count`
(returning dependents and a found flag, or an error), return an all-unset
set when the URL is not a recognized repository URL; propagate a lookup
error; otherwise set `DependentCount` only when the lookup found the
repository. -/
def Get (count : String → String → Except String (Int × Bool)) (u : Url) :
    Except String depsDevSet :=
  let nt := parseRepoURL u
  if nt.2 = "" then .ok { DependentCount := none }
  else
    match count nt.1 nt.2 with
    | .error e => .error ("failed to fetch deps.dev dependent count: " ++ e)
    | .ok (deps, found) =>
      .ok { DependentCount := if found then some deps else none }

end depsdev

/-! ## The `githubmentions` source -/

namespace githubmentions

/-- `mentionSet`: the single optional `github_mention_count` field. -/
structure mentionSet where
  MentionCount : Option Int

/-- `Source.IsSupported`: always true. -/
def IsSupported (_r : Url) : Bool := true

/-- `Source.Get`: with `searchResult` standing for the outcome of
`githubSearchTotalCommitMentions`, an error is returned as-is with no set;
a count is stored into the set's `MentionCount`. -/
def Get (searchResult : Except String Int) : Except String mentionSet :=
  match searchResult with
  | .error e => .error e
  | .ok c => .ok { MentionCount := some c }

end githubmentions

/-! ## Concrete instances for evaluating the worker loop -/

/-- A concrete worker configuration: scorer enabled, a commit ID present. -/
def exampleWorker : WorkerConfig :=
  { hasScorer := true, scoreColumnName := "default_score",
    commitID := "abc123" }

/-- A concrete URL-parsing stub: `"bad"` is unparseable, anything else
parses to a `github.com` URL with the raw string as path. -/
def exampleParse : String → Option Url := fun s =>
  if s = "bad" then none
  else some { hostname := "github.com", path := s }

/-- A concrete collection stub over the unit signal-set type: the path
`"unc"` is uncollectable, the path `"boom"` fails fatally, anything else
collects successfully. -/
def exampleCollect : Url → CollectOutcome Unit := fun u =>
  if u.path = "unc" then .uncollectable
  else if u.path = "boom" then .fatal "transport failure"
  else .ok ()

/-- A concrete formatted-score stub. -/
def exampleScoreOf : Unit → String := fun _ => "1.00000"

/-! ## Helper lemmas -/

theorem scoreStep_foldl_shift (record : Record) (inputs : List Input)
    (a b : ℝ) :
    inputs.foldl (scoreStep record) (a, b) =
      (a + (inputs.foldl (scoreStep record) (0, 0)).1,
       b + (inputs.foldl (scoreStep record) (0, 0)).2) := by
  induction inputs generalizing a b with
  | nil => simp
  | cons i rest ih =>
    simp only [List.foldl_cons]
    rcases hv : i.Value record with _ | v
    · simp only [scoreStep, hv]
      rw [ih a b]
    · simp only [scoreStep, hv]
      rw [ih (a + i.Weight * v) (b + i.Weight),
        ih (0 + i.Weight * v) (0 + i.Weight)]
      simp only [Prod.mk.injEq]
      constructor <;> ring

theorem scoreFold_eq_specSums (record : Record) (inputs : List Input) :
    inputs.foldl (scoreStep record) (0, 0) =
      (specNumerator inputs record, specDenominator inputs record) := by
  induction inputs with
  | nil => simp [specNumerator, specDenominator]
  | cons i rest ih =>
    simp only [List.foldl_cons]
    rcases hv : i.Value record with _ | v
    · simp only [scoreStep, hv]
      rw [ih]
      simp [specNumerator, specDenominator, hv]
    · simp only [scoreStep, hv]
      rw [scoreStep_foldl_shift, ih]
      simp [specNumerator, specDenominator, hv]

theorem scoreStep_absent (record : Record) (acc : ℝ × ℝ) (i : Input)
    (h : i.Value record = none) : scoreStep record acc i = acc := by
  simp [scoreStep, h]

theorem scoreFold_middle_absent (record : Record) (pre post : List Input)
    (i : Input) (h : i.Value record = none) :
    (pre ++ i :: post).foldl (scoreStep record) (0, 0) =
      (pre ++ post).foldl (scoreStep record) (0, 0) := by
  simp only [List.foldl_append, List.foldl_cons,
    scoreStep_absent record _ i h]

theorem scoreFold_all_absent (record : Record) (inputs : List Input)
    (h : ∀ i ∈ inputs, i.Value record = none) :
    inputs.foldl (scoreStep record) (0, 0) = (0, 0) := by
  induction inputs with
  | nil => rfl
  | cons i rest ih =>
    rw [List.foldl_cons, scoreStep_absent record _ i (h i (by simp))]
    exact ih (fun j hj => h j (by simp [hj]))

theorem normalizationFuncs_eq_none (name : String) (h1 : name ≠ "linear")
    (h2 : name ≠ "zapfian") : normalizationFuncs name = none := by
  unfold normalizationFuncs
  split <;> simp_all

theorem recordExtras_keys (w : WorkerConfig) (score jobTime : String) :
    (recordExtras w score jobTime).map signalio.Field.Key =
      constructionExtras w := by
  rcases w with ⟨hs, sc, cid⟩
  by_cases h : cid ≠ MissingCommitID <;>
    cases hs <;>
      simp [recordExtras, constructionExtras, h]

/-! ## Claim theorems -/

/-- C1: for every list of configured Inputs and every record,
`WeightedArithmeticMean.Score` is the sum of `weight_i * Normalize_i(value_i)`
over exactly the Inputs whose value is present, divided (as a Go float
division) by the sum of `weight_i` over those same Inputs; with Inputs
`{A: weight 2, identity}` and `{B: weight 1, identity}` and record
`{A=10, B=4}` the score is `8.0`, and with `B` absent it is `10.0`. -/
theorem wam_score_eq_weighted_sum_ratio :
    (∀ (p : WeightedArithmeticMean) (record : Record),
        p.Score record =
          goDiv (specNumerator p.inputs record)
            (specDenominator p.inputs record))
    ∧ WeightedArithmeticMean.Score ⟨[inputA, inputB]⟩ recordAB =
        GoFloat.fin 8
    ∧ WeightedArithmeticMean.Score ⟨[inputA, inputB]⟩ recordAOnly =
        GoFloat.fin 10 := by
  refine ⟨?_, ?_, ?_⟩
  · intro p record
    unfold WeightedArithmeticMean.Score
    rw [scoreFold_eq_specSums]
  · have h : WeightedArithmeticMean.Score ⟨[inputA, inputB]⟩ recordAB =
        goDiv (0 + 2 * 10 + 1 * 4) (0 + 2 + 1) := rfl
    rw [h]
    unfold goDiv
    rw [if_neg (by norm_num : ¬((0 : ℝ) + 2 + 1 = 0))]
    norm_num
  · have h : WeightedArithmeticMean.Score ⟨[inputA, inputB]⟩ recordAOnly =
        goDiv (0 + 2 * 10) (0 + 2) := rfl
    rw [h]
    unfold goDiv
    rw [if_neg (by norm_num : ¬((0 : ℝ) + 2 = 0))]
    norm_num

/-- C2: an Input whose field is unset in the record contributes nothing to
the score: changing its weight or its distribution, or removing it from the
input list entirely, leaves `WeightedArithmeticMean.Score` unchanged. -/
theorem wam_absent_input_immaterial :
    ∀ (pre post : List Input) (i : Input) (w : ℝ) (d : Distribution)
      (record : Record), record i.field = none →
      (WeightedArithmeticMean.Score ⟨pre ++ i :: post⟩ record =
        WeightedArithmeticMean.Score
          ⟨pre ++ { field := i.field, Weight := w, distribution := d } ::
            post⟩ record)
      ∧ (WeightedArithmeticMean.Score ⟨pre ++ i :: post⟩ record =
        WeightedArithmeticMean.Score ⟨pre ++ post⟩ record) := by
  intro pre post i w d record h
  have hv : i.Value record = none := by
    simp [Input.Value, h]
  have hv2 :
      Input.Value { field := i.field, Weight := w, distribution := d }
        record = none := by
    simp [Input.Value, h]
  unfold WeightedArithmeticMean.Score
  rw [scoreFold_middle_absent record pre post i hv,
    scoreFold_middle_absent record pre post _ hv2]
  exact ⟨rfl, rfl⟩

/-- Witness for C2 at a concrete instance: with inputs `[A, B]`, a record
where `B` is absent, changing B's weight to 7 or deleting B leaves the
score unchanged. -/
theorem wam_absent_input_immaterial_witness :
    (WeightedArithmeticMean.Score ⟨[inputA] ++ inputB :: []⟩ recordAOnly =
      WeightedArithmeticMean.Score
        ⟨[inputA] ++
          Input.mk inputB.field 7 identityDistribution :: []⟩ recordAOnly)
    ∧ (WeightedArithmeticMean.Score ⟨[inputA] ++ inputB :: []⟩ recordAOnly =
      WeightedArithmeticMean.Score ⟨[inputA] ++ []⟩ recordAOnly) :=
  wam_absent_input_immaterial [inputA] [] inputB 7 identityDistribution
    recordAOnly rfl

/-- C3: when no configured Input has a present value, the score is the Go
float division `0 / 0`, i.e. NaN: a non-finite value, never the finite
number `0.0`. -/
theorem wam_no_present_input_nonfinite :
    ∀ (p : WeightedArithmeticMean) (record : Record),
      (∀ i ∈ p.inputs, record i.field = none) →
      p.Score record = GoFloat.nan
      ∧ (p.Score record).isFinite = false
      ∧ p.Score record ≠ GoFloat.fin 0 := by
  intro p record h
  have hfold : p.inputs.foldl (scoreStep record) (0, 0) = (0, 0) :=
    scoreFold_all_absent record p.inputs
      (fun i hi => by simp [Input.Value, h i hi])
  have hs : p.Score record = GoFloat.nan := by
    unfold WeightedArithmeticMean.Score
    rw [hfold]
    unfold goDiv
    simp
  refine ⟨hs, ?_, ?_⟩
  · rw [hs]; rfl
  · rw [hs]; intro hcontra; cases hcontra

/-- Witness for C3 at a concrete instance: one configured input and an
everywhere-empty record give a NaN score. -/
theorem wam_no_present_input_nonfinite_witness :
    WeightedArithmeticMean.Score ⟨[inputA]⟩ (fun _ => none) = GoFloat.nan
    ∧ (WeightedArithmeticMean.Score ⟨[inputA]⟩
        (fun _ => none)).isFinite = false
    ∧ WeightedArithmeticMean.Score ⟨[inputA]⟩ (fun _ => none) ≠
        GoFloat.fin 0 :=
  wam_no_present_input_nonfinite ⟨[inputA]⟩ (fun _ => none)
    (fun _ _ => rfl)

/-- C4: the distribution registry contains exactly the names `"linear"`
and `"zapfian"`; the linear transform is the identity on every real input,
and the zapfian transform is `v ↦ log (1 + v)`, so it sends `0` to `0` and
`e - 1` to `1`. -/
theorem distribution_registry_contents :
    (∀ name : String, (normalizationFuncs name).isSome ↔
        (name = "linear" ∨ name = "zapfian"))
    ∧ (∀ v : ℝ, ((normalizationFuncs "linear").getD id) v = v)
    ∧ (∀ v : ℝ, ((normalizationFuncs "zapfian").getD id) v =
        Real.log (1 + v))
    ∧ ((normalizationFuncs "zapfian").getD id) 0 = 0
    ∧ ((normalizationFuncs "zapfian").getD id) (Real.exp 1 - 1) = 1 := by
  refine ⟨?_, fun v => rfl, fun v => rfl, ?_, ?_⟩
  · intro name
    unfold normalizationFuncs
    split <;> simp_all
  · show Real.log (1 + 0) = 0
    norm_num
  · show Real.log (1 + (Real.exp 1 - 1)) = 1
    rw [show (1 : ℝ) + (Real.exp 1 - 1) = Real.exp 1 by ring, Real.log_exp]

/-- C5: `LookupDistribution` returns a distribution whose `String()` equals
the looked-up name exactly for the registered names, and `nil` (`none`) for
every other name. -/
theorem lookupDistribution_registry :
    ∀ name : String,
      ((name = "linear" ∨ name = "zapfian") →
        ∃ d, LookupDistribution name = some d ∧ d.toText = name)
      ∧ (¬(name = "linear" ∨ name = "zapfian") →
        LookupDistribution name = none) := by
  intro name
  constructor
  · rintro (rfl | rfl)
    · exact ⟨_, rfl, rfl⟩
    · exact ⟨_, rfl, rfl⟩
  · intro h
    push_neg at h
    unfold LookupDistribution
    rw [normalizationFuncs_eq_none name h.1 h.2]

/-- Witness for C5 at concrete names: `"linear"` resolves to a distribution
named `"linear"`, and the unregistered name `"pareto"` resolves to `none`. -/
theorem lookupDistribution_registry_witness :
    (∃ d, LookupDistribution "linear" = some d ∧ d.toText = "linear")
    ∧ LookupDistribution "pareto" = none :=
  ⟨(lookupDistribution_registry "linear").1 (Or.inl rfl),
   (lookupDistribution_registry "pareto").2 (by decide)⟩

/-- C6: in the repository loop of `collectWorker.Process`, an empty or
unparseable URL or an uncollectable repository only skips that repository
(no row, loop continues); any other collection error makes the whole call
return an error; and when no repository is fatal the loop runs to the end,
producing exactly the rows of the collectible repositories in order. -/
theorem process_skips_and_aborts :
    ∀ (σ : Type) (w : WorkerConfig) (parse : String → Option Url)
      (collect : Url → CollectOutcome σ) (scoreOf : σ → String)
      (jobTime : String),
      (∀ (r : String) (rest : List String), skippedRepo parse collect r →
        processRepos w parse collect scoreOf jobTime (r :: rest) =
          processRepos w parse collect scoreOf jobTime rest)
      ∧ (∀ (r : String) (rest : List String), r ≠ "" →
          fatalRepo parse collect r →
          ∃ e, processRepos w parse collect scoreOf jobTime (r :: rest) =
            Except.error e)
      ∧ (∀ repos : List String,
          (∀ x ∈ repos, x = "" ∨ ¬fatalRepo parse collect x) →
          processRepos w parse collect scoreOf jobTime repos =
            Except.ok
              (repos.filterMap (rowFor w parse collect scoreOf jobTime))) := by
  intro σ w parse collect scoreOf jobTime
  refine ⟨?_, ?_, ?_⟩
  · intro r rest hskip
    rcases hskip with rfl | hp | ⟨u, hp, hu⟩
    · simp [processRepos]
    · by_cases hre : r = ""
      · subst hre; simp [processRepos]
      · simp [processRepos, hre, hp]
    · by_cases hre : r = ""
      · subst hre; simp [processRepos]
      · simp [processRepos, hre, hp, hu]
  · rintro r rest hre ⟨u, e, hp, hu⟩
    exact ⟨"failed during signal collection: " ++ e,
      by simp [processRepos, hre, hp, hu]⟩
  · intro repos
    induction repos with
    | nil => intro _; rfl
    | cons r rest ih =>
      intro h
      have hrest : ∀ x ∈ rest, x = "" ∨ ¬fatalRepo parse collect x :=
        fun x hx => h x (List.mem_cons_of_mem r hx)
      by_cases hre : r = ""
      · subst hre
        rw [List.filterMap_cons]
        simp only [rowFor, if_pos rfl]
        simpa [processRepos] using ih hrest
      · cases hp : parse r with
        | none =>
          rw [List.filterMap_cons]
          simp only [rowFor, if_neg hre, hp]
          simpa [processRepos, hre, hp] using ih hrest
        | some u =>
          cases hc : collect u with
          | uncollectable =>
            rw [List.filterMap_cons]
            simp only [rowFor, if_neg hre, hp, hc]
            simpa [processRepos, hre, hp, hc] using ih hrest
          | fatal e =>
            exact absurd ⟨u, e, hp, hc⟩
              ((h r (List.mem_cons_self r rest)).resolve_left hre)
          | ok ss =>
            rw [List.filterMap_cons]
            simp only [rowFor, if_neg hre, hp, hc]
            simp [processRepos, hre, hp, hc, ih hrest, Except.map]

/-- Witness for C6 at concrete inputs: an uncollectable repository is
skipped, a fatally-failing repository aborts with an error, and a
fatal-free batch (with an empty URL in it) completes with exactly the rows
of the collectible repositories. -/
theorem process_skips_and_aborts_witness :
    (processRepos exampleWorker exampleParse exampleCollect exampleScoreOf
        "jt" ["unc", "r1"] =
      processRepos exampleWorker exampleParse exampleCollect exampleScoreOf
        "jt" ["r1"])
    ∧ (∃ e, processRepos exampleWorker exampleParse exampleCollect
        exampleScoreOf "jt" ["boom", "r1"] = Except.error e)
    ∧ (processRepos exampleWorker exampleParse exampleCollect exampleScoreOf
        "jt" ["", "r1"] =
      Except.ok (["", "r1"].filterMap
        (rowFor exampleWorker exampleParse exampleCollect exampleScoreOf
          "jt"))) := by
  have h := process_skips_and_aborts Unit exampleWorker exampleParse
    exampleCollect exampleScoreOf "jt"
  refine ⟨?_, ?_, ?_⟩
  · exact h.1 "unc" ["r1"]
      (Or.inr (Or.inr ⟨{ hostname := "github.com", path := "unc" }, rfl,
        rfl⟩))
  · exact h.2.1 "boom" ["r1"] (by decide)
      ⟨{ hostname := "github.com", path := "boom" }, "transport failure",
        rfl, rfl⟩
  · refine h.2.2 ["", "r1"] ?_
    intro x hx
    rcases List.mem_cons.mp hx with rfl | hx2
    · exact Or.inl rfl
    · rcases List.mem_cons.mp hx2 with rfl | hx3
      · refine Or.inr ?_
        rintro ⟨u, e, hp, hc⟩
        have hu : u = { hostname := "github.com", path := "r1" } := by
          simpa [exampleParse] using hp.symm
        subst hu
        simp [exampleCollect] at hc
      · simp at hx3

/-- C7: the per-record extras fields written with every `WriteSignals`
call carry exactly the keys fixed at CSV-writer construction, in the same
order: the score column iff a scorer is configured, then the collection
date, then the commit ID column iff `CommitID()` differs from the missing
sentinel; consequently every row of a completed batch conforms to the
schema fixed up front. -/
theorem process_extras_schema_stable :
    (∀ (w : WorkerConfig) (score jobTime : String),
      (recordExtras w score jobTime).map signalio.Field.Key =
        constructionExtras w)
    ∧ (∀ (σ : Type) (w : WorkerConfig) (parse : String → Option Url)
        (collect : Url → CollectOutcome σ) (scoreOf : σ → String)
        (jobTime : String) (repos : List String) (rows : List (OutRow σ)),
        processRepos w parse collect scoreOf jobTime repos =
          Except.ok rows →
        ∀ row ∈ rows,
          row.extras.map signalio.Field.Key = constructionExtras w) := by
  refine ⟨recordExtras_keys, ?_⟩
  intro σ w parse collect scoreOf jobTime repos
  induction repos with
  | nil =>
    intro rows h row hrow
    simp only [processRepos] at h
    cases h
    cases hrow
  | cons r rest ih =>
    intro rows h row hrow
    simp only [processRepos] at h
    by_cases hre : r = ""
    · rw [if_pos hre] at h
      exact ih rows h row hrow
    · rw [if_neg hre] at h
      split at h
      · exact ih rows h row hrow
      · split at h
        · exact ih rows h row hrow
        · cases h
        · rename_i ss hss
          cases hrest : processRepos w parse collect scoreOf jobTime rest with
          | error e =>
            rw [hrest] at h
            simp only [Except.map] at h
            exact Except.noConfusion h
          | ok rows' =>
            rw [hrest] at h
            simp only [Except.map] at h
            cases h
            rcases List.mem_cons.mp hrow with rfl | hmem
            · exact recordExtras_keys w (scoreOf ss) jobTime
            · exact ih rows' hrest row hmem

/-- Witness for C7 at a concrete run: a one-repository batch completes,
and its single row's extras keys equal the construction-time schema. -/
theorem process_extras_schema_stable_witness :
    (OutRow.extras
      { signals := (), extras := recordExtras exampleWorker "1.00000" "jt" }
      ).map signalio.Field.Key = constructionExtras exampleWorker :=
  process_extras_schema_stable.2 Unit exampleWorker exampleParse
    exampleCollect exampleScoreOf "jt" ["r1"]
    [{ signals := (), extras := recordExtras exampleWorker "1.00000" "jt" }]
    rfl _ (List.mem_singleton.mpr rfl)

/-- C8: text marshaling of the writer type round-trips on the three
defined format names, and fails with the distinguishable
`ErrorUnknownWriterType` both when marshaling an out-of-range value and
when unmarshaling any other string. -/
theorem writerType_text_roundtrip :
    (∀ t : WriterType,
      (t = WriterTypeCSV ∨ t = WriterTypeJSON ∨ t = WriterTypeText) →
      ∃ s, t.MarshalText = Except.ok s ∧
        ∃ t2, WriterType.UnmarshalText s = Except.ok t2 ∧
          t2.MarshalText = Except.ok s)
    ∧ (∀ t : WriterType,
      ¬(t = WriterTypeCSV ∨ t = WriterTypeJSON ∨ t = WriterTypeText) →
      t.MarshalText = Except.error ErrorUnknownWriterType)
    ∧ (∀ s : String, s ≠ "csv" → s ≠ "json" → s ≠ "text" →
      WriterType.UnmarshalText s = Except.error ErrorUnknownWriterType) := by
  refine ⟨?_, ?_, ?_⟩
  · rintro t (rfl | rfl | rfl)
    · exact ⟨"csv", rfl, WriterTypeCSV, rfl, rfl⟩
    · exact ⟨"json", rfl, WriterTypeJSON, rfl, rfl⟩
    · exact ⟨"text", rfl, WriterTypeText, rfl, rfl⟩
  · intro t h
    push_neg at h
    obtain ⟨h0, h1, h2⟩ := h
    simp [WriterType.MarshalText, WriterType.toText, WriterTypeCSV,
      WriterTypeJSON, WriterTypeText] at h0 h1 h2 ⊢
    simp [h0, h1, h2]
  · intro s hc hj ht
    simp [WriterType.UnmarshalText, hc, hj, ht]

/-- Witness for C8 at concrete values: `csv` round-trips, the out-of-range
value 10 fails to marshal, and the string `"yaml"` fails to unmarshal. -/
theorem writerType_text_roundtrip_witness :
    (∃ s, WriterType.MarshalText WriterTypeCSV = Except.ok s ∧
      ∃ t2, WriterType.UnmarshalText s = Except.ok t2 ∧
        t2.MarshalText = Except.ok s)
    ∧ WriterType.MarshalText 10 = Except.error ErrorUnknownWriterType
    ∧ WriterType.UnmarshalText "yaml" =
        Except.error ErrorUnknownWriterType :=
  ⟨writerType_text_roundtrip.1 WriterTypeCSV (Or.inl rfl),
   writerType_text_roundtrip.2.1 10 (by decide),
   writerType_text_roundtrip.2.2 "yaml" (by decide) (by decide) (by decide)⟩

/-- C9: `depsDevSource.Get` sets `dependent_count` iff the lookup found
the repository: a non-`github.com` URL yields an all-unset set with no
error; a successful lookup with no row found leaves the field unset; a
found row sets it; a lookup error is propagated. -/
theorem depsdev_get_dependent_count :
    ∀ (count : String → String → Except String (Int × Bool)) (u : Url),
      (u.hostname ≠ "github.com" →
        depsdev.Get count u = Except.ok { DependentCount := none })
      ∧ (∀ d : Int, u.hostname = "github.com" →
          count (depsdev.trimSlashes u.path) "GITHUB" =
            Except.ok (d, true) →
          depsdev.Get count u = Except.ok { DependentCount := some d })
      ∧ (∀ d : Int, u.hostname = "github.com" →
          count (depsdev.trimSlashes u.path) "GITHUB" =
            Except.ok (d, false) →
          depsdev.Get count u = Except.ok { DependentCount := none })
      ∧ (∀ e : String, u.hostname = "github.com" →
          count (depsdev.trimSlashes u.path) "GITHUB" = Except.error e →
          depsdev.Get count u = Except.error
            ("failed to fetch deps.dev dependent count: " ++ e)) := by
  intro count u
  refine ⟨?_, ?_, ?_, ?_⟩
  · intro h
    simp [depsdev.Get, depsdev.parseRepoURL, h]
  · intro d h hc
    simp [depsdev.Get, depsdev.parseRepoURL, h, hc]
  · intro d h hc
    simp [depsdev.Get, depsdev.parseRepoURL, h, hc]
  · intro e h hc
    simp [depsdev.Get, depsdev.parseRepoURL, h, hc]

/-- Witness for C9 at concrete inputs: a `gitlab.com` URL yields an unset
set; on a `github.com` URL a found lookup sets the count to 7, a not-found
lookup leaves it unset, and an erroring lookup propagates the error. -/
theorem depsdev_get_dependent_count_witness :
    (depsdev.Get (fun _ _ => Except.ok (7, true))
        { hostname := "gitlab.com", path := "/o/r" } =
      Except.ok { DependentCount := none })
    ∧ (depsdev.Get (fun _ _ => Except.ok (7, true))
        { hostname := "github.com", path := "/o/r" } =
      Except.ok { DependentCount := some 7 })
    ∧ (depsdev.Get (fun _ _ => Except.ok (7, false))
        { hostname := "github.com", path := "/o/r" } =
      Except.ok { DependentCount := none })
    ∧ (depsdev.Get (fun _ _ => Except.error "quota")
        { hostname := "github.com", path := "/o/r" } =
      Except.error "failed to fetch deps.dev dependent count: quota") :=
  ⟨(depsdev_get_dependent_count (fun _ _ => Except.ok (7, true))
      { hostname := "gitlab.com", path := "/o/r" }).1 (by decide),
   (depsdev_get_dependent_count (fun _ _ => Except.ok (7, true))
      { hostname := "github.com", path := "/o/r" }).2.1 7 rfl rfl,
   (depsdev_get_dependent_count (fun _ _ => Except.ok (7, false))
      { hostname := "github.com", path := "/o/r" }).2.2.1 7 rfl rfl,
   (depsdev_get_dependent_count (fun _ _ => Except.error "quota")
      { hostname := "github.com", path := "/o/r" }).2.2.2 "quota" rfl rfl⟩

/-- C10: the `githubmentions` source supports every repository, and its
`Get` is atomic: it returns either an error (when the commit search
fails) or a set whose `MentionCount` is set; never a set with the field
unset. -/
theorem githubmentions_get_atomic :
    (∀ r : Url, githubmentions.IsSupported r = true)
    ∧ (∀ searchResult : Except String Int,
        (∃ e, githubmentions.Get searchResult = Except.error e)
        ∨ (∃ s, githubmentions.Get searchResult = Except.ok s ∧
            s.MentionCount ≠ none)) := by
  constructor
  · intro r
    rfl
  · intro searchResult
    cases searchResult with
    | error e => exact Or.inl ⟨e, rfl⟩
    | ok c =>
      exact Or.inr ⟨{ MentionCount := some c }, rfl, by simp⟩

end CriticalityScore
